import Mathlib

/-!
Shallow embedding of the retrieval subsystem in `python_backend/rag.py`
(class `RAGSystem`), in the configuration the spec calls keyword-fallback
mode: the FAISS library and the remote embedding provider are optional, and
all control flow that is decided by code in this repository is modelled
faithfully, statement by statement.  Python strings are modelled as lists of
characters, machine floats produced by the deterministic hash embedding as
real numbers, and the external SHA-256 digest (from `hashlib`) as an
arbitrary 32-byte list parameter.
-/

namespace Rag

/-- Python `str` modelled as a list of characters. -/
abbrev Str := List Char

/-- Python `str.lower()` (ASCII case folding, which covers every input the
    system handles). -/
def lowerStr (s : Str) : Str := s.map Char.toLower

/-- Helper for `splitWs`: accumulate a word in `acc` (reversed). -/
def splitWsAux : List Char → List Char → List Str
  | [], acc => if acc.isEmpty then [] else [acc.reverse]
  | c :: cs, acc =>
    if c.isWhitespace then
      if acc.isEmpty then splitWsAux cs [] else acc.reverse :: splitWsAux cs []
    else splitWsAux cs (c :: acc)

/-- Python `str.split()` with no separator: split on runs of whitespace,
    dropping empty fragments. -/
def splitWs (s : Str) : List Str := splitWsAux s []

/-- Python `needle in hay` on strings: substring containment. -/
def isSubstrOf (needle hay : Str) : Bool :=
  hay.tails.any (fun t => needle.isPrefixOf t)

/-- The keyword score of `rag.py` line 228:
    `sum(1 for word in query_lower.split() if word in content_lower)`. -/
def keywordScore (query content : Str) : Nat :=
  (splitWs (lowerStr query)).countP (fun w => isSubstrOf w (lowerStr content))

/-- One entry of `RAGSystem.metadata` (`rag.py` lines 165-170). -/
structure DocMeta where
  id : Str
  content : Str
  source : Str
  vector : Option (List ℝ)

/-- One element of the list returned by `RAGSystem.search`; scores produced
    by the keyword fallback are `float(score)` of a count, so they are
    modelled as naturals (`0` models `0.0`). -/
structure SearchResult where
  content : Str
  source : Str
  score : Nat
deriving DecidableEq

/-- The comparison used by `scored_docs.sort(key=lambda x: x["score"],
    reverse=True)`: descending by score.  A stable sort with this relation
    is exactly Python's stable descending sort. -/
def scoreGe (a b : SearchResult) : Prop := b.score ≤ a.score

instance : DecidableRel scoreGe := fun a b => Nat.decLe b.score a.score

instance : IsTotal SearchResult scoreGe := ⟨fun a b => Nat.le_total b.score a.score⟩

instance : IsTrans SearchResult scoreGe := ⟨fun _ _ _ h1 h2 => Nat.le_trans h2 h1⟩

/-- The sentinel returned on an empty store (`rag.py` lines 183-189). -/
def sentinel (query : Str) : SearchResult :=
  ⟨"No documents found for: ".data ++ query, "System".data, 0⟩

/-- The `scored_docs` loop of `rag.py` lines 223-234: every document whose
    keyword score is positive, as a result record, in insertion order. -/
def scoredDocs (metadata : List DocMeta) (query : Str) : List SearchResult :=
  metadata.filterMap (fun doc =>
    if 0 < keywordScore query doc.content then
      some ⟨doc.content, doc.source, keywordScore query doc.content⟩
    else none)

/-- `RAGSystem.search` in keyword-fallback mode (`rag.py` lines 176-251 with
    `FAISS_AVAILABLE` false or `self.index` absent): empty-store sentinel,
    `k = min(k, len(self.metadata))`, score-filtered docs sorted stably in
    descending score order, truncated to `k`; if that list is empty the
    first `k` documents are returned with score `0.0`. -/
def search (metadata : List DocMeta) (query : Str) (k : Nat) : List SearchResult :=
  if metadata.length = 0 then [sentinel query]
  else
    let kc := min k metadata.length
    let results := (List.insertionSort scoreGe (scoredDocs metadata query)).take kc
    if results.isEmpty then
      (metadata.take kc).map (fun doc => ⟨doc.content, doc.source, 0⟩)
    else results

/-- `text.split('. ')` of Python: split on each non-overlapping occurrence
    of the two-character separator, left to right, keeping empty pieces. -/
def splitDotSpace : List Char → List Char → List Str
  | '.' :: ' ' :: cs, acc => acc.reverse :: splitDotSpace cs []
  | c :: cs, acc => splitDotSpace cs (c :: acc)
  | [], acc => [acc.reverse]

/-- One iteration of the sentence-accumulation loop of `rag.py` lines
    126-132, acting on the state `(chunks, current_chunk)`. -/
def chunkStep (st : List Str × Str) (sentence : Str) : List Str × Str :=
  if st.2.length + sentence.length < 500 then
    (st.1, st.2 ++ sentence ++ ". ".data)
  else if st.2.isEmpty then (st.1, sentence ++ ". ".data)
  else (st.1 ++ [st.2], sentence ++ ". ".data)

/-- The fallback sentence chunker of `rag.py` lines 122-134 applied to one
    text: split on `'. '`, accumulate sentences into chunks of fewer than
    500 characters, flush the final non-empty buffer. -/
def fallbackSplit (text : Str) : List Str :=
  let st := (splitDotSpace text []).foldl chunkStep ([], [])
  if st.2.isEmpty then st.1 else st.1 ++ [st.2]

/-- The id `f"vec_{n}"` of `rag.py` line 164. -/
def vecId (n : Nat) : Str := "vec_".data ++ Nat.toDigits 10 n

/-- The metadata-append loop of `rag.py` lines 163-171, starting at id `n`:
    in fallback mode (`faissAvailable = false`) the embedding vector is
    stored in the record, otherwise the field is `None`. -/
def mkRecords (source : Str) (embed : Str → List ℝ) (faissAvailable : Bool) :
    Nat → List Str → List DocMeta
  | _, [] => []
  | n, chunk :: rest =>
    ⟨vecId n, chunk, source, if faissAvailable then none else some (embed chunk)⟩
      :: mkRecords source embed faissAvailable (n + 1) rest

/-- The `vector_ids` accumulated alongside the metadata records. -/
def mkIds : Nat → List Str → List Str
  | _, [] => []
  | n, _ :: rest => vecId n :: mkIds (n + 1) rest

/-- `RAGSystem.add_documents` (`rag.py` lines 105-174) without the optional
    `RecursiveCharacterTextSplitter` (so the fallback chunker runs), with
    the embedding step abstracted as `embed` (the code obtains one vector
    per chunk either from the provider or from `_text_to_vector`; nothing
    downstream inspects the values).  Returns the new metadata list and the
    assigned ids.  The code contains no dimension check on this path. -/
def addDocuments (faissAvailable : Bool) (metadata : List DocMeta)
    (texts : List Str) (source : Str) (embed : Str → List ℝ) :
    List DocMeta × List Str :=
  let chunks := texts.flatMap fallbackSplit
  (metadata ++ mkRecords source embed faissAvailable metadata.length chunks,
   mkIds metadata.length chunks)

/-- The persisted metadata artifact (`faiss_metadata_{user}.pkl`): either
    absent, unreadable/corrupt, or a faithfully pickled metadata list. -/
inductive MetaFile
  | missing
  | corrupt
  | good (metadata : List DocMeta)

/-- `RAGSystem.save_index` (`rag.py` lines 95-103) at the metadata level:
    `pickle.dump(self.metadata, f)` writes the full list. -/
def saveIndex (metadata : List DocMeta) : MetaFile := .good metadata

/-- `RAGSystem.load_index` (`rag.py` lines 79-93): a readable pickle yields
    its list; a missing file leaves the fresh empty list from `__init__`;
    any exception is caught and the state reset to empty. -/
def loadIndex : MetaFile → List DocMeta
  | .good metadata => metadata
  | .missing => []
  | .corrupt => []

/-- `RAGSystem.search` as a state transformer over the store state
    `self.metadata`: the method's only interaction with the store is the
    read of `self.metadata`; it performs no assignment. -/
def searchM (query : Str) (k : Nat) : StateM (List DocMeta) (List SearchResult) := do
  let metadata ← get
  pure (search metadata query k)

/-- The tiling of `rag.py` lines 68-70:
    `repeated = hash_bytes * (dimension // len(hash_bytes) + 1)` followed by
    `repeated[:dimension]`, on an abstract digest. -/
def tileTruncate (digest : List Nat) (dimension : Nat) : List Nat :=
  (List.replicate (dimension / digest.length + 1) digest).flatten.take dimension

/-- Modelled from the spec, section 4.2 step 2: tile (repeat) the digest
    bytes until the tiled buffer length is at least the target dimension
    (the least such repetition count), then truncate to exactly
    `dimension` bytes. -/
def specTile (digest : List Nat) (dimension : Nat) : List Nat :=
  (List.replicate ((dimension + digest.length - 1) / digest.length) digest).flatten.take dimension

/-- The normalization of `rag.py` lines 72-75: divide by the Euclidean norm
    when it is positive, else leave the vector unchanged. -/
noncomputable def normalizeVec (v : List ℝ) : List ℝ :=
  if 0 < Real.sqrt ((v.map (fun x => x ^ 2)).sum) then
    v.map (fun x => x / Real.sqrt ((v.map (fun x => x ^ 2)).sum))
  else v

/-- `RAGSystem._text_to_vector` (`rag.py` lines 62-77) on an abstract
    SHA-256 digest: tile and truncate the digest bytes, read each byte as a
    float, unit-normalize when the norm is positive. -/
noncomputable def textToVector (digest : List Nat) (dimension : Nat) : List ℝ :=
  normalizeVec ((tileTruncate digest dimension).map (fun b => (b : ℝ)))

/-- Modelled from the spec, section 4.2 steps 3-4: interpret each byte of
    the tiled buffer as an unsigned integer converted to a float, compute
    the Euclidean norm, and divide every component by it when it is
    positive, leaving the vector unchanged when it is zero. -/
noncomputable def specNormalize (v : List ℝ) : List ℝ :=
  if 0 < Real.sqrt ((v.map (fun x => x ^ 2)).sum) then
    v.map (fun x => x / Real.sqrt ((v.map (fun x => x ^ 2)).sum))
  else v

/-- Modelled from the spec, section 4.2: the reference definition of the
    deterministic fallback embedding. -/
noncomputable def specFallbackEmbedding (digest : List Nat) (dimension : Nat) : List ℝ :=
  specNormalize ((specTile digest dimension).map (fun b => (b : ℝ)))

/-- Adjacent-pairs check that a result list is in descending score order. -/
def sortedDescB : List SearchResult → Bool
  | a :: b :: rest => decide (b.score ≤ a.score) && sortedDescB (b :: rest)
  | _ => true

/-- The two texts of the bio.txt scenario in section 8 of the spec. -/
def bioText1 : Str := "The mitochondria is the powerhouse of the cell.".data

/-- Second text of the bio.txt scenario. -/
def bioText2 : Str := "Unrelated sentence about weather.".data

/-- The store produced by ingesting the two bio.txt texts in fallback mode
    (the stored vectors are irrelevant to keyword search). -/
def bioMd : List DocMeta :=
  (addDocuments false [] [bioText1, bioText2] "bio.txt".data (fun _ => [])).1

/-- A one-document store used to instantiate universally quantified
    theorems about non-empty stores. -/
def appleMd : List DocMeta :=
  [⟨"vec_0".data, "apple pie".data, "doc".data, none⟩]

/-- A two-document store on which the padding behaviour of `search` is
    observed: one document matches the query, one does not. -/
def fruitMd : List DocMeta :=
  [⟨"vec_0".data, "apple".data, "s".data, none⟩,
   ⟨"vec_1".data, "banana".data, "s".data, none⟩]

/-- C6: on an empty store (zero indexed records), `search` returns, for
    every query and every `k`, exactly one synthetic sentinel record — not
    an empty list and not an error — with score `0.0` and the non-citable
    source marker `"System"` (`rag.py` lines 183-189). -/
theorem search_empty_sentinel (q : Str) (k : Nat) :
    search [] q k = [⟨"No documents found for: ".data ++ q, "System".data, 0⟩] := rfl

/-- C4: saving a store and loading it back yields a store whose `search`
    results agree with the original store for every query and every `k`,
    in the same order with the same scores.  `save_index` pickles the full
    metadata list and `load_index` restores it; in keyword-fallback mode
    the search result is a function of that list alone. -/
theorem search_roundtrip (md : List DocMeta) (q : Str) (k : Nat) :
    search (loadIndex (saveIndex md)) q k = search md q k := rfl

/-- C8: a missing, unreadable or corrupt metadata artifact makes
    `load_index` produce the fresh empty store state (zero records) instead
    of propagating an error: the exception handler of `rag.py` lines 90-93
    resets the state, and a missing file leaves the empty state from
    `__init__`.  `loadIndex` is a total function, so no error escapes. -/
theorem load_failure_fresh_state :
    loadIndex .missing = [] ∧ loadIndex .corrupt = [] := ⟨rfl, rfl⟩

/-- C10: `search` is a pure read of the store state: run as a state
    transformer over `self.metadata`, it returns the keyword-fallback
    results and leaves the state it was given unchanged — the method body
    contains no assignment to the store. -/
theorem search_preserves_state (md : List DocMeta) (q : Str) (k : Nat) :
    (searchM q k).run md = (search md q k, md) := rfl

/-- C1 counterexample: on a two-record store in keyword-fallback mode where
    exactly one record matches the query, `search("apple", 2)` returns one
    result, not `min(2, store size) = 2`: the code pads with zero-score
    records only when no record at all scores positively (`rag.py` line
    241), not whenever fewer than `k` records score positively. -/
theorem search_undercount_cex :
    ¬ ((search fruitMd "apple".data 2).length = min 2 fruitMd.length) := by decide

/-- C7 counterexample: the fallback chunker applied to the empty string
    produces one chunk, the string `". "`, not zero chunks: Python's
    `"".split('. ')` is `[""]`, and the accumulation loop turns the single
    empty sentence into the buffer `". "`, which is flushed at end of
    input. -/
theorem chunker_empty_cex :
    fallbackSplit "".data = [". ".data] ∧ fallbackSplit "".data ≠ [] := by decide

/-- C9 counterexample: `rag.py` line 169 stores the embedding vector in the
    persisted record exactly when FAISS is unavailable, i.e. when the store
    operates in keyword-fallback mode, and stores `None` when a true vector
    index is maintained — the opposite of the claim: after a fallback-mode
    add the record's vector field is present, after a FAISS-mode add it is
    null. -/
theorem persisted_vector_cex :
    ((addDocuments false [] ["alpha".data] "s".data (fun _ => [(0 : ℝ)])).1.map
        (fun r => r.vector.isSome) = [true])
    ∧ ((addDocuments true [] ["alpha".data] "s".data (fun _ => [(0 : ℝ)])).1.map
        (fun r => r.vector.isSome) = [false]) := ⟨rfl, rfl⟩

set_option maxRecDepth 4000 in
/-- C3 counterexample: in keyword-fallback mode a first add that stores
    384-dimensional vectors followed by an add whose embedder yields
    300-dimensional vectors succeeds — the store grows from one record to
    two, holding vectors of lengths 384 and 300 — instead of failing with a
    `DimensionMismatch` error and leaving the record count unchanged:
    `add_documents` contains no dimension check on the metadata path. -/
theorem add_documents_mismatch_cex :
    ((addDocuments false [] ["alpha".data] "s".data
        (fun _ => List.replicate 384 (0 : ℝ))).1.length = 1)
    ∧ ((addDocuments false
          (addDocuments false [] ["alpha".data] "s".data
            (fun _ => List.replicate 384 (0 : ℝ))).1
          ["beta".data] "s".data (fun _ => List.replicate 300 (0 : ℝ))).1.map
        (fun r => Option.map List.length r.vector) = [some 384, some 300]) := ⟨rfl, rfl⟩

/-- Truncating the flattening of `m` copies of a list to a length the
    copies already cover ignores any further copies. -/
theorem take_flatten_replicate_of_le {α : Type} (l : List α) (d m n : Nat)
    (hmn : m ≤ n) (hm : d ≤ m * l.length) :
    ((List.replicate n l).flatten.take d) = ((List.replicate m l).flatten.take d) := by
  have hsplit : List.replicate n l = List.replicate m l ++ List.replicate (n - m) l := by
    rw [← List.replicate_add]
    congr 1
    omega
  have hlen : d ≤ (List.replicate m l).flatten.length := by
    rw [List.length_flatten, List.map_replicate, List.sum_replicate, smul_eq_mul]
    exact hm
  rw [hsplit, List.flatten_append, List.take_append_of_le_length hlen]

/-- The two tilings agree: the code repeats the digest
    `dimension / len + 1` times, the spec repeats it the least number of
    times whose total length reaches `dimension`; both cover `dimension`
    bytes, so the truncations coincide. -/
theorem tileTruncate_eq_specTile (digest : List Nat) (d : Nat)
    (h32 : digest.length = 32) :
    tileTruncate digest d = specTile digest d := by
  unfold tileTruncate specTile
  rw [h32]
  exact take_flatten_replicate_of_le digest d ((d + 32 - 1) / 32) (d / 32 + 1)
    (by omega) (by rw [h32]; omega)

/-- C2: for every 32-byte digest (the SHA-256 digest of the input text,
    computed by the external `hashlib` library) and every positive
    dimension, `_text_to_vector` equals the reference definition of the
    spec: tile the digest bytes to length at least `dimension`, truncate to
    exactly `dimension` bytes, read each byte as a float, and divide by the
    Euclidean norm when it is positive.  Both sides are pure functions of
    the digest and the dimension, so repeated calls on the same text yield
    the identical vector. -/
theorem textToVector_matches_spec (digest : List Nat) (d : Nat)
    (h32 : digest.length = 32) (_hd : 0 < d) :
    textToVector digest d = specFallbackEmbedding digest d := by
  unfold textToVector specFallbackEmbedding
  rw [tileTruncate_eq_specTile digest d h32]
  rfl

/-- Witness for C2 at a concrete 32-byte digest and the default dimension
    384. -/
theorem textToVector_matches_spec_witness :
    textToVector (List.replicate 32 7) 384 = specFallbackEmbedding (List.replicate 32 7) 384 :=
  textToVector_matches_spec (List.replicate 32 7) 384 (by decide) (by decide)

/-- The number of positively scored documents equals the length of the
    score filter over the metadata. -/
theorem scoredDocs_length (md : List DocMeta) (q : Str) :
    (scoredDocs md q).length
      = (md.filter (fun d => 0 < keywordScore q d.content)).length := by
  induction md with
  | nil => rfl
  | cons d rest ih =>
    unfold scoredDocs at ih ⊢
    by_cases hd : 0 < keywordScore q d.content <;>
      simp [List.filterMap_cons, List.filter_cons, hd, ih]

/-- Every scored document carries the keyword score of its own content. -/
theorem score_of_mem_scoredDocs {md : List DocMeta} {q : Str} {r : SearchResult}
    (hr : r ∈ scoredDocs md q) : r.score = keywordScore q r.content := by
  unfold scoredDocs at hr
  rw [List.mem_filterMap] at hr
  obtain ⟨d, _, hfd⟩ := hr
  by_cases hs : 0 < keywordScore q d.content
  · rw [if_pos hs] at hfd
    cases hfd
    rfl
  · rw [if_neg hs] at hfd
    exact absurd hfd (by simp)

/-- On a non-empty store, `search` returns either the truncated sorted
    score list (when it is non-empty) or the zero-score padding over the
    first `min k size` documents (when it is empty). -/
theorem search_spec_cases (md : List DocMeta) (q : Str) (k : Nat) (h : md.length ≠ 0) :
    (search md q k
        = (List.insertionSort scoreGe (scoredDocs md q)).take (min k md.length)
      ∧ (List.insertionSort scoreGe (scoredDocs md q)).take (min k md.length) ≠ [])
    ∨ (search md q k
        = (md.take (min k md.length)).map (fun d => ⟨d.content, d.source, 0⟩)
      ∧ (List.insertionSort scoreGe (scoredDocs md q)).take (min k md.length) = []) := by
  by_cases he : (List.insertionSort scoreGe (scoredDocs md q)).take (min k md.length) = []
  · right
    refine ⟨?_, he⟩
    simp [search, h, List.isEmpty_iff, he]
  · left
    refine ⟨?_, he⟩
    simp [search, h, List.isEmpty_iff, he]

/-- A list sorted under `scoreGe` passes the descending-score check. -/
theorem sortedDescB_of_sorted :
    ∀ {l : List SearchResult}, List.Sorted scoreGe l → sortedDescB l = true
  | [], _ => rfl
  | [_], _ => rfl
  | a :: b :: rest, h => by
    rw [List.sorted_cons] at h
    have hab : scoreGe a b := h.1 b (List.mem_cons_self b rest)
    have htail := sortedDescB_of_sorted h.2
    simp only [sortedDescB, htail, Bool.and_true, decide_eq_true_eq]
    exact hab

/-- A list of all-zero scores passes the descending-score check. -/
theorem sortedDescB_of_all_zero :
    ∀ l : List SearchResult, (∀ r ∈ l, r.score = 0) → sortedDescB l = true
  | [], _ => rfl
  | [_], _ => rfl
  | a :: b :: rest, h => by
    have hb : b.score = 0 := h b (by simp)
    have ha : a.score = 0 := h a (by simp)
    have htail := sortedDescB_of_all_zero (b :: rest)
      (fun r hr => h r (List.mem_cons_of_mem a hr))
    simp [sortedDescB, htail, hb, ha]

/-- C1 (amended): on a non-empty store in keyword-fallback mode, records
    with score 0 are excluded unless no record at all scores positively;
    only in that case is the result the first `min(k, store size)` records
    with score `0.0` in insertion order.  Consequently `search(q, k)`
    returns `min(k, number of positively scoring records)` results when at
    least one record scores positively, and `min(k, store size)` results
    otherwise — it can return fewer than `min(k, store size)` results. -/
theorem search_result_count (md : List DocMeta) (q : Str) (k : Nat) (h : md.length ≠ 0) :
    ((search md q k).length =
      if (md.filter (fun d => 0 < keywordScore q d.content)).length = 0
      then min k md.length
      else min k (md.filter (fun d => 0 < keywordScore q d.content)).length)
    ∧ ((md.filter (fun d => 0 < keywordScore q d.content)).length = 0 →
        search md q k
          = (md.take (min k md.length)).map (fun d => ⟨d.content, d.source, 0⟩)) := by
  have hp_le : (md.filter (fun d => 0 < keywordScore q d.content)).length ≤ md.length :=
    List.length_filter_le _ _
  have hsort : (List.insertionSort scoreGe (scoredDocs md q)).length
      = (md.filter (fun d => 0 < keywordScore q d.content)).length := by
    rw [(List.perm_insertionSort scoreGe (scoredDocs md q)).length_eq, scoredDocs_length]
  rcases search_spec_cases md q k h with ⟨hcase, hne⟩ | ⟨hcase, hnil⟩
  · have hmk : ¬(min k md.length = 0
        ∨ List.insertionSort scoreGe (scoredDocs md q) = []) := by
      rw [← List.take_eq_nil_iff]
      exact hne
    push_neg at hmk
    have hp0 : (md.filter (fun d => 0 < keywordScore q d.content)).length ≠ 0 := by
      intro hp
      exact hmk.2 (List.length_eq_zero.mp (by rw [hsort]; exact hp))
    constructor
    · rw [hcase, List.length_take, inf_eq_min, hsort, if_neg hp0]
      omega
    · intro hp
      exact absurd hp hp0
  · have hdisj : min k md.length = 0
        ∨ (md.filter (fun d => 0 < keywordScore q d.content)).length = 0 := by
      rcases List.take_eq_nil_iff.mp hnil with h1 | h2
      · exact Or.inl h1
      · right
        rw [← hsort, h2]
        rfl
    constructor
    · rw [hcase, List.length_map, List.length_take, inf_eq_min]
      by_cases hp : (md.filter (fun d => 0 < keywordScore q d.content)).length = 0
      · rw [if_pos hp]
        omega
      · rw [if_neg hp]
        rcases hdisj with h1 | h2
        · omega
        · exact absurd h2 hp
    · intro _
      exact hcase

/-- Witness for C1 on a concrete one-document store. -/
theorem search_result_count_witness :
    ((search appleMd "apple".data 5).length =
      if (appleMd.filter (fun d => 0 < keywordScore "apple".data d.content)).length = 0
      then min 5 appleMd.length
      else min 5 (appleMd.filter (fun d => 0 < keywordScore "apple".data d.content)).length)
    ∧ ((appleMd.filter (fun d => 0 < keywordScore "apple".data d.content)).length = 0 →
        search appleMd "apple".data 5
          = (appleMd.take (min 5 appleMd.length)).map (fun d => ⟨d.content, d.source, 0⟩)) :=
  search_result_count appleMd "apple".data 5 (by decide)

/-- Every returned record of a non-empty-store search scores exactly the
    keyword score of its content. -/
theorem search_score_mem (md : List DocMeta) (q : Str) (k : Nat) (h : md.length ≠ 0)
    (r : SearchResult) (hr : r ∈ search md q k) :
    r.score = keywordScore q r.content := by
  rcases search_spec_cases md q k h with ⟨hcase, _⟩ | ⟨hcase, hnil⟩
  · rw [hcase] at hr
    exact score_of_mem_scoredDocs
      ((List.perm_insertionSort scoreGe (scoredDocs md q)).subset
        (List.take_subset _ _ hr))
  · rw [hcase, List.mem_map] at hr
    obtain ⟨d, hd, rfl⟩ := hr
    rcases List.take_eq_nil_iff.mp hnil with h1 | h2
    · rw [h1] at hd
      simp at hd
    · have hsd : scoredDocs md q = [] := by
        have hlen := (List.perm_insertionSort scoreGe (scoredDocs md q)).length_eq
        rw [h2] at hlen
        exact List.length_eq_zero.mp hlen.symm
      unfold scoredDocs at hsd
      have hall := List.filterMap_eq_nil_iff.mp hsd d (List.take_subset _ _ hd)
      by_cases hs : 0 < keywordScore q d.content
      · rw [if_pos hs] at hall
        exact absurd hall (by simp)
      · show 0 = keywordScore q d.content
        omega

/-- Non-empty-store search results pass the descending-score check. -/
theorem search_sorted (md : List DocMeta) (q : Str) (k : Nat) (h : md.length ≠ 0) :
    sortedDescB (search md q k) = true := by
  rcases search_spec_cases md q k h with ⟨hcase, _⟩ | ⟨hcase, _⟩
  · rw [hcase]
    exact sortedDescB_of_sorted
      (List.Pairwise.sublist (List.take_sublist _ _)
        (List.sorted_insertionSort scoreGe _))
  · rw [hcase]
    apply sortedDescB_of_all_zero
    intro r hr
    rw [List.mem_map] at hr
    obtain ⟨d, _, rfl⟩ := hr
    rfl

/-- C5: on every non-empty store, every record returned by keyword-fallback
    search scores the count of query words (lower-cased,
    whitespace-split) occurring as substrings of the record's lower-cased
    content, and the results are in descending score order; and in the
    bio.txt scenario, `search("mitochondria powerhouse", 1)` returns
    exactly the mitochondria chunk with score 2 (at least 2), while the
    weather chunk scores 0. -/
theorem keyword_score_and_order :
    (∀ (md : List DocMeta) (q : Str) (k : Nat), md.length ≠ 0 →
      ((search md q k).all (fun r => r.score == keywordScore q r.content)
        && sortedDescB (search md q k)) = true)
    ∧ search bioMd "mitochondria powerhouse".data 1
        = [⟨bioText1 ++ ". ".data, "bio.txt".data, 2⟩]
    ∧ keywordScore "mitochondria powerhouse".data (bioText2 ++ ". ".data) = 0 := by
  refine ⟨?_, by decide, by decide⟩
  intro md q k h
  rw [Bool.and_eq_true]
  constructor
  · rw [List.all_eq_true]
    intro r hr
    rw [beq_iff_eq]
    exact search_score_mem md q k h r hr
  · exact search_sorted md q k h

/-- Witness for C5 on the concrete bio.txt store. -/
theorem keyword_score_and_order_witness :
    ((search bioMd "mitochondria powerhouse".data 2).all
        (fun r => r.score == keywordScore "mitochondria powerhouse".data r.content)
      && sortedDescB (search bioMd "mitochondria powerhouse".data 2)) = true :=
  keyword_score_and_order.1 bioMd "mitochondria powerhouse".data 2 (by decide)

/-- `mkRecords` appends one record per chunk. -/
theorem mkRecords_length (source : Str) (embed : Str → List ℝ) (faiss : Bool) :
    ∀ (n : Nat) (chunks : List Str),
      (mkRecords source embed faiss n chunks).length = chunks.length
  | _, [] => rfl
  | n, _ :: rest => by
    simp [mkRecords, mkRecords_length source embed faiss (n + 1) rest]

/-- C3 (amended): `add_documents` performs no dimension check — for every
    store (whatever dimension its existing vectors have) and every add
    call, even one whose embedder yields vectors of a different length, the
    call succeeds, appends exactly one record per chunk, and leaves the
    existing records unchanged; no `DimensionMismatch` error exists in the
    code. -/
theorem add_documents_no_dimension_check (faiss : Bool) (md : List DocMeta)
    (texts : List Str) (src : Str) (embed : Str → List ℝ) :
    (addDocuments faiss md texts src embed).1.length
      = md.length + (texts.flatMap fallbackSplit).length
    ∧ (addDocuments faiss md texts src embed).1.take md.length = md := by
  constructor
  · simp [addDocuments, mkRecords_length]
  · show (md ++ mkRecords src embed faiss md.length (texts.flatMap fallbackSplit)).take
        md.length = md
    exact List.take_left _ _

/-- The content and source of the appended records are the chunks paired
    with the call's source label, in order. -/
theorem mkRecords_contents (source : Str) (embed : Str → List ℝ) (faiss : Bool) :
    ∀ (n : Nat) (chunks : List Str),
      (mkRecords source embed faiss n chunks).map (fun r => (r.content, r.source))
        = chunks.map (fun c => (c, source))
  | _, [] => rfl
  | n, _ :: rest => by
    simp [mkRecords, mkRecords_contents source embed faiss (n + 1) rest]

/-- The vector field of every appended record is null exactly in FAISS
    mode. -/
theorem mkRecords_vector (source : Str) (embed : Str → List ℝ) (faiss : Bool) :
    ∀ (n : Nat) (chunks : List Str), ∀ r ∈ mkRecords source embed faiss n chunks,
      (r.vector = none ↔ faiss = true)
  | _, [], r, hr => absurd hr (by simp [mkRecords])
  | n, c :: rest, r, hr => by
    rcases List.mem_cons.mp hr with hr1 | hr2
    · subst hr1
      cases faiss <;> simp [mkRecords]
    · exact mkRecords_vector source embed faiss (n + 1) rest r hr2

/-- C9 (amended): in every record appended to the persisted per-tenant
    state, the vector field is null exactly when the store maintains a true
    FAISS vector index; in keyword-fallback mode the embedding vector is
    stored in the record.  Content and source are always present, in
    insertion order, one record per chunk. -/
theorem persisted_vector_layout (faiss : Bool) (md : List DocMeta)
    (texts : List Str) (src : Str) (embed : Str → List ℝ) :
    (((addDocuments faiss md texts src embed).1.drop md.length).map
        (fun r => (r.content, r.source))
      = (texts.flatMap fallbackSplit).map (fun c => (c, src)))
    ∧ ∀ r ∈ (addDocuments faiss md texts src embed).1.drop md.length,
        (r.vector = none ↔ faiss = true) := by
  have hdrop : (addDocuments faiss md texts src embed).1.drop md.length
      = mkRecords src embed faiss md.length (texts.flatMap fallbackSplit) := by
    show (md ++ _).drop md.length = _
    exact List.drop_left _ _
  rw [hdrop]
  exact ⟨mkRecords_contents src embed faiss md.length _,
    mkRecords_vector src embed faiss md.length _⟩

/-- Witness for C9: the single record appended by a concrete fallback-mode
    add has a non-null vector. -/
theorem persisted_vector_layout_witness :
    ((⟨"vec_0".data, "alpha. ".data, "s".data, some []⟩ : DocMeta).vector = none
      ↔ false = true) :=
  (persisted_vector_layout false [] ["alpha".data] "s".data (fun _ => [])).2
    ⟨"vec_0".data, "alpha. ".data, "s".data, some []⟩ (List.mem_singleton_self _)

/-- The chunk accumulator only ever flushes non-empty buffers. -/
theorem chunkStep_foldl_nonempty :
    ∀ (sentences : List Str) (st : List Str × Str),
      (∀ c ∈ st.1, c ≠ []) → ∀ c ∈ (sentences.foldl chunkStep st).1, c ≠ []
  | [], _, hst => hst
  | s :: rest, st, hst => by
    apply chunkStep_foldl_nonempty rest (chunkStep st s)
    intro c hc
    unfold chunkStep at hc
    by_cases h1 : st.2.length + s.length < 500
    · rw [if_pos h1] at hc
      exact hst c hc
    · rw [if_neg h1] at hc
      by_cases h2 : st.2.isEmpty = true
      · rw [if_pos h2] at hc
        exact hst c hc
      · rw [if_neg h2] at hc
        rcases List.mem_append.mp hc with hc1 | hc2
        · exact hst c hc1
        · rw [List.mem_singleton] at hc2
          subst hc2
          rw [List.isEmpty_iff] at h2
          exact h2

/-- C7 (amended): the sentence-boundary fallback chunker, applied to the
    empty string, produces one chunk consisting of the separator `". "`
    (not zero chunks, since Python splits the empty string into one empty
    sentence and the loop pads it with `". "`); it never produces an empty
    chunk; and a single sentence of at least the 500-character target is
    emitted as one oversized chunk — the whole sentence with `". "`
    appended — rather than truncated. -/
theorem chunker_amended :
    fallbackSplit "".data = [". ".data]
    ∧ (∀ (text : Str), ∀ c ∈ fallbackSplit text, c ≠ [])
    ∧ (∀ text : Str, splitDotSpace text [] = [text] → 500 ≤ text.length →
        fallbackSplit text = [text ++ ". ".data]) := by
  refine ⟨by decide, ?_, ?_⟩
  · intro text c hc
    simp only [fallbackSplit] at hc
    by_cases h2 : ((splitDotSpace text []).foldl chunkStep ([], [])).2.isEmpty = true
    · rw [if_pos h2] at hc
      exact chunkStep_foldl_nonempty _ _ (by simp) c hc
    · rw [if_neg h2] at hc
      rcases List.mem_append.mp hc with hc1 | hc2
      · exact chunkStep_foldl_nonempty _ _ (by simp) c hc1
      · rw [List.mem_singleton] at hc2
        subst hc2
        rw [List.isEmpty_iff] at h2
        exact h2
  · intro text hsplit hlen
    simp only [fallbackSplit, hsplit, List.foldl_cons, List.foldl_nil]
    have hstep : chunkStep ([], []) text = ([], text ++ ". ".data) := by
      unfold chunkStep
      rw [if_neg (by simp; omega)]
      rfl
    rw [hstep]
    simp

set_option maxRecDepth 10000 in
/-- Witness for C7 at a concrete 500-character single-sentence input. -/
theorem chunker_amended_witness :
    fallbackSplit (List.replicate 500 'a') = [List.replicate 500 'a' ++ ". ".data] :=
  chunker_amended.2.2 (List.replicate 500 'a') (by decide) (by decide)

end Rag
